import Mathlib

/-!
Verification of the Preview-streaming-system specification: the sliding
window chunk buffer, the streaming dispatcher's seek/drain behaviour, the
prefetch clamp, the session manager, the MediaSource consumer loop
(src/unnamed/part_001) and the frontend start-button validation
(src/frontend/player.js).  The buffer, dispatcher, prefetch controller and
session manager are not present under src/ (only frontend prototypes are),
so those components are modelled from the spec, faithfully to its words.
-/

instance {ε α : Type} [DecidableEq ε] [DecidableEq α] : DecidableEq (Except ε α) :=
  fun x y =>
    match x, y with
    | Except.ok a, Except.ok b =>
        if h : a = b then Decidable.isTrue (by rw [h])
        else Decidable.isFalse (by intro e; cases e; exact h rfl)
    | Except.error a, Except.error b =>
        if h : a = b then Decidable.isTrue (by rw [h])
        else Decidable.isFalse (by intro e; cases e; exact h rfl)
    | Except.ok _, Except.error _ => Decidable.isFalse (fun e => Except.noConfusion e)
    | Except.error _, Except.ok _ => Decidable.isFalse (fun e => Except.noConfusion e)

/-- Modelled from the spec: the Chunk data model of §3 — an immutable
unit of media data with a `sequence index` (monotonic, zero-based) and
`payload` bytes (the fetched-at timestamp plays no role in any claim and
is omitted; bytes are naturals). -/
structure Chunk where
  seqIndex : Nat
  payload : List Nat
deriving DecidableEq, Repr

/-- Modelled from the spec: the errors of the taxonomy (§7) that the
Sliding Window Buffer can raise. -/
inductive BufferError where
  | OutOfOrderChunk
  | Evicted
  | NotYetAvailable
deriving DecidableEq, Repr

/-- Modelled from the spec: the dispatcher error of §7. -/
inductive DispatchError where
  | SeekOutOfWindow
deriving DecidableEq, Repr

/-- Modelled from the spec: the BufferPolicy configuration of §3 —
`maxWindowChunks` (rewind depth ceiling), the fixed default prefetch
distance, and the `[minPrefetch, maxPrefetch]` clamp bounds of §4.2. -/
structure BufferPolicy where
  maxWindowChunks : Nat
  minPrefetch : Nat
  maxPrefetch : Nat
  defaultPrefetch : Nat
deriving DecidableEq, Repr

/-- Modelled from the spec: the Window of §3, the Sliding Window Buffer
state — the contiguous retained range starts at `low`
(= `lowWatermark`) and holds `chunks` at indices `low, low+1, ...`. -/
structure Window where
  low : Nat
  chunks : List Chunk
deriving DecidableEq, Repr

/-- The `highWatermark` of the window, as an integer so that the empty window
(high = low − 1) is representable. -/
def Window.highWatermark (w : Window) : Int :=
  (w.low : Int) + w.chunks.length - 1

/-- The next admissible sequence index, `highWatermark + 1`. -/
def Window.nextIndex (w : Window) : Nat :=
  w.low + w.chunks.length

/-- The empty initial window. -/
def initWindow : Window := ⟨0, []⟩

/-- Modelled from the spec: §4.1 `admit(chunk)` — appends at
`highWatermark+1`; fails with `OutOfOrderChunk` if the chunk's sequence
index is not exactly `highWatermark+1`; triggers eviction if the new size
exceeds `maxWindowChunks`, removing chunks from `lowWatermark` upward
until the size constraint holds and advancing `lowWatermark`
accordingly. -/
def admitChunk (p : BufferPolicy) (w : Window) (c : Chunk) : Except BufferError Window :=
  if c.seqIndex = w.nextIndex then
    let appended := w.chunks ++ [c]
    let excess := appended.length - p.maxWindowChunks
    Except.ok { low := w.low + excess, chunks := appended.drop excess }
  else
    Except.error BufferError.OutOfOrderChunk

/-- Modelled from the spec: §4.1 `get(index)` — returns the chunk if
`lowWatermark ≤ index ≤ highWatermark`; fails with `Evicted` if
`index < lowWatermark`, or `NotYetAvailable` if `index > highWatermark`.
(Named `Window.get` because a bare `get` collides with `MonadState.get`.) -/
def Window.get (w : Window) (i : Nat) : Except BufferError Chunk :=
  if i < w.low then Except.error BufferError.Evicted
  else if h : i - w.low < w.chunks.length then
    Except.ok (w.chunks.get ⟨i - w.low, h⟩)
  else Except.error BufferError.NotYetAvailable

/-- Modelled from the spec: §4.1 `availableRange()` — returns
`[lowWatermark, highWatermark]`. -/
def availableRange (w : Window) : Int × Int :=
  ((w.low : Int), w.highWatermark)

/-- The list of successive window states produced by a sequence of
`admitChunk` calls (stopping at the first failure): the states "after each
call" that the spec's invariant quantifies over. -/
def admitTrace (p : BufferPolicy) (w : Window) : List Chunk → List Window
  | [] => []
  | c :: cs =>
    match admitChunk p w c with
    | Except.ok w' => w' :: admitTrace p w' cs
    | Except.error _ => []

/-- The final window after a sequence of `admitChunk` calls (stopping at the
first failure). -/
def admitList (p : BufferPolicy) (w : Window) : List Chunk → Window
  | [] => w
  | c :: cs =>
    match admitChunk p w c with
    | Except.ok w' => admitList p w' cs
    | Except.error _ => w

/-- Chunks `cs` carry consecutive sequence indices starting at `b`. -/
def inOrderFrom (b : Nat) (cs : List Chunk) : Prop :=
  cs.map Chunk.seqIndex = List.range' b cs.length

instance (b : Nat) (cs : List Chunk) : Decidable (inOrderFrom b cs) :=
  decidable_of_iff (cs.map Chunk.seqIndex = List.range' b cs.length) Iff.rfl

/-- The window's retained chunks are exactly the tail of the admitted
history `cs` starting at `lowWatermark` (representation invariant tying a
window to the chunks previously admitted into it). -/
def tracks (cs : List Chunk) (w : Window) : Prop :=
  w.low ≤ cs.length ∧ w.chunks = cs.drop w.low

/-- Modelled from the spec: the Session of §3 — binds one Window to the
PlaybackHead the client is consuming from (the Source Adapter cursor is
represented by the remaining ground-truth chunk list in the round-trip
theorem below). -/

structure Session where
  window : Window
  playbackHead : Nat
deriving DecidableEq, Repr

/-- A fresh session: empty window, `playbackHead = 0`. -/
def initSession : Session := ⟨initWindow, 0⟩

/-- Modelled from the spec: §4.3 `seek(targetIndex)` — if `targetIndex`
is within `availableRange()`, sets `playbackHead = targetIndex` and
resumes draining from there; otherwise fails with `SeekOutOfWindow`. -/
def seek (s : Session) (t : Nat) : Except DispatchError Session :=
  if (availableRange s.window).1 ≤ (t : Int) ∧
      (t : Int) ≤ (availableRange s.window).2 then
    Except.ok { s with playbackHead := t }
  else
    Except.error DispatchError.SeekOutOfWindow

/-- Modelled from the spec: one drain step of the Streaming Dispatcher
(§4.3 `serve`) — deliver the chunk at `playbackHead`, then advance the
head by one once the write is acknowledged. -/
def drainNext (s : Session) : Except BufferError (Chunk × Session) :=
  match Window.get s.window s.playbackHead with
  | Except.ok c => Except.ok (c, { s with playbackHead := s.playbackHead + 1 })
  | Except.error e => Except.error e

/-- The window carries correctly indexed chunks: position `k` of the
retained list holds sequence index `lowWatermark + k`.  Holds for every
window reachable by in-order admission. -/
def Window.wf (w : Window) : Prop :=
  inOrderFrom w.low w.chunks

instance (w : Window) : Decidable w.wf :=
  inferInstanceAs (Decidable (inOrderFrom w.low w.chunks))

/-- Modelled from the spec: the producer–consumer loop of §5 under its
canonical sequential schedule (§4.3 `serve`, §5 ordering guarantees):
for each ground-truth chunk of the Source Adapter in order, the Prefetch
path admits it into the window, then the Dispatcher performs one drain
step whenever the chunk at `playbackHead` is available, delivering it and
advancing the head.  Runs until source exhaustion and returns the
delivered chunk sequence. -/
def streamRun (p : BufferPolicy) (s : Session) : List Chunk → List Chunk
  | [] => []
  | c :: cs =>
    match admitChunk p s.window c with
    | Except.error _ => []
    | Except.ok w' =>
      match drainNext { s with window := w' } with
      | Except.ok (d, s') => d :: streamRun p s' cs
      | Except.error _ => streamRun p { s with window := w' } cs

/-- Modelled from the spec: §4.2 and §6 `prefetchDistance(hint)` — clamps
the external hint to the `[minPrefetch, maxPrefetch]` bounds of the
BufferPolicy regardless of the hint's value; an absent (or stale,
delivered as absent) hint falls back to the policy's fixed default
prefetch distance, which is clamped the same way. -/
def prefetchDistance (p : BufferPolicy) (hint : Option Nat) : Nat :=
  min p.maxPrefetch (max p.minPrefetch (hint.getD p.defaultPrefetch))

/-- Modelled from the spec: the Session Manager's table of active
sessions keyed by sessionId (§4.4). -/
structure SessionManager where
  sessions : List (Nat × Session)
deriving DecidableEq, Repr

/-- Modelled from the spec: look up an active session by id (§4.4,
`SessionNotFound` corresponds to `none`). -/
def lookupSession (m : SessionManager) (sid : Nat) : Option Session :=
  (m.sessions.find? (fun e => e.fst == sid)).map Prod.snd

/-- Modelled from the spec: §4.4 `destroy(sessionId)` — releases the
session's buffer by removing its table entry.  It is total: destroying an
already-destroyed or unknown session succeeds as a no-op rather than
returning an error. -/
def destroy (m : SessionManager) (sid : Nat) : SessionManager :=
  ⟨m.sessions.filter (fun e => e.fst != sid)⟩

/-- The MediaSource-side calls of the consumer loop in
src/unnamed/part_001: `append v` is `sourceBuffer.appendBuffer(value)`,
`wait` is `await waitForUpdateEnd(sourceBuffer)`, and `endOfStream` is
`mediaSource.endOfStream()`. -/
inductive MSEvent where
  | append (v : List Nat)
  | wait
  | endOfStream
deriving DecidableEq, Repr

def MSEvent.isAppend : MSEvent → Bool
  | MSEvent.append _ => true
  | _ => false

/-- The function `fetchAndAppendChunks` (src/unnamed/part_001, lines 20–38): loops
reading the response stream; on `done` it calls `endOfStream` and breaks;
otherwise, if the SourceBuffer is busy (`sourceBuffer.updating`) it first
awaits `waitForUpdateEnd`, then calls `appendBuffer(value)`.  `stream` is
the sequence of values the reader yields before reporting done; `busy`
gives the `updating` flag observed at each iteration (the loop does not
control it, so the theorem quantifies over all such schedules).  The
result is the trace of MediaSource calls the loop performs. -/
def fetchAndAppendChunks : List Bool → List (List Nat) → List MSEvent
  | _, [] => [MSEvent.endOfStream]
  | busy, v :: rest =>
    (if busy.headD false then [MSEvent.wait, MSEvent.append v]
      else [MSEvent.append v]) ++ fetchAndAppendChunks busy.tail rest

/-- JavaScript `String.prototype.trim()` over the character list of the
string: removes whitespace from both ends (src/frontend/player.js line
53, `urlInput.value?.trim()`). -/
def jsTrim (cs : List Char) : List Char :=
  ((cs.dropWhile Char.isWhitespace).reverse.dropWhile Char.isWhitespace).reverse

/-- JavaScript `String.prototype.startsWith(p)` over character lists. -/
def jsStartsWith (cs p : List Char) : Bool :=
  p.isPrefixOf cs

/-- The pieces of frontend state the start-button click handler touches:
the current `hlsInstance` handle (if any), the stored `currentPreviewId`
(if any), and the status line text (src/frontend/player.js lines 18–19,
24–27). -/
structure PlayerState where
  hlsInstance : Option Nat
  currentPreviewId : Option Nat
  status : List Char
deriving DecidableEq, Repr

/-- What one click of the start button does next: either the handler
returned early with a validation message (no backend request is sent), or
it proceeds to POST `/start-preview` with the given URL. -/
inductive ClickAction where
  | rejectEmptyUrl
  | rejectBadScheme
  | sendStartPreview (url : List Char)
deriving DecidableEq, Repr

/-- The synchronous prefix of the start-button click handler
(src/frontend/player.js lines 50–66; the identical validation appears in
src/unnamed/part_000 lines 34–46): trim the input; if it is empty, set
the status to the "paste a video URL" warning and return; if it starts
with neither `http://` nor `https://`, set the "invalid URL" warning and
return; otherwise set the loading status, destroy any previous HLS
instance, and proceed to the backend request. -/

def startBtnClick (input : List Char) (st : PlayerState) :
    ClickAction × PlayerState :=
  let videoUrl := jsTrim input
  if videoUrl = [] then
    (ClickAction.rejectEmptyUrl,
      { st with status := "⚠️ Please paste a video URL".toList })
  else if !(jsStartsWith videoUrl ("http://".toList)) &&
      !(jsStartsWith videoUrl ("https://".toList)) then
    (ClickAction.rejectBadScheme,
      { st with status :=
          "⚠️ Invalid URL - must start with http:// or https://".toList })
  else
    (ClickAction.sendStartPreview videoUrl,
      { st with
        status := "⏳ Preparing instant preview...".toList,
        hlsInstance := none })

theorem admit_ok_eq {p : BufferPolicy} {w : Window} {c : Chunk} {w' : Window}
    (h : admitChunk p w c = Except.ok w') :
    c.seqIndex = w.nextIndex ∧
    w'.low = w.low + ((w.chunks.length + 1) - p.maxWindowChunks) ∧
    w'.chunks = (w.chunks ++ [c]).drop ((w.chunks.length + 1) - p.maxWindowChunks) := by
  unfold admitChunk at h
  split at h
  · next heq =>
    injection h with h'
    subst h'
    simpa using heq
  · exact absurd h (by simp)

theorem admit_ok_of_eq {p : BufferPolicy} {w : Window} {c : Chunk}
    (h : c.seqIndex = w.nextIndex) :
    admitChunk p w c = Except.ok
      ⟨w.low + ((w.chunks.length + 1) - p.maxWindowChunks),
        (w.chunks ++ [c]).drop ((w.chunks.length + 1) - p.maxWindowChunks)⟩ := by
  unfold admitChunk
  rw [if_pos h]
  simp

theorem admit_error_of_ne {p : BufferPolicy} {w : Window} {c : Chunk}
    (h : c.seqIndex ≠ w.nextIndex) :
    admitChunk p w c = Except.error BufferError.OutOfOrderChunk := by
  unfold admitChunk
  rw [if_neg h]

theorem admit_ok_length {p : BufferPolicy} {w : Window} {c : Chunk} {w' : Window}
    (h : admitChunk p w c = Except.ok w') :
    w'.chunks.length ≤ p.maxWindowChunks := by
  obtain ⟨-, -, hc⟩ := admit_ok_eq h
  rw [hc]
  simp only [List.length_drop, List.length_append, List.length_cons,
    List.length_nil]
  omega

theorem drop_concat_get {α : Type} {l : List α} {c : α} {n k : Nat}
    (hk : n + k = l.length) (h : k < ((l ++ [c]).drop n).length) :
    ((l ++ [c]).drop n)[k] = c := by
  rw [List.getElem_drop, List.getElem_append_right (by omega)]
  simp [show n + k - l.length = 0 by omega]

theorem get_eq_ok_of {w : Window} {i : Nat} (h1 : w.low ≤ i)
    (h2 : i - w.low < w.chunks.length) :
    Window.get w i = Except.ok (w.chunks.get ⟨i - w.low, h2⟩) := by
  unfold Window.get
  rw [if_neg (by omega), dif_pos h2]

theorem get_evicted_of_lt {w : Window} {i : Nat} (h : i < w.low) :
    Window.get w i = Except.error BufferError.Evicted := by
  unfold Window.get
  rw [if_pos h]

theorem get_nya_of {w : Window} {i : Nat} (h1 : w.low ≤ i)
    (h2 : w.chunks.length ≤ i - w.low) :
    Window.get w i = Except.error BufferError.NotYetAvailable := by
  unfold Window.get
  rw [if_neg (by omega), dif_neg (by omega)]

theorem inOrderFrom_cons {b : Nat} {c : Chunk} {cs : List Chunk} :
    inOrderFrom b (c :: cs) ↔ c.seqIndex = b ∧ inOrderFrom (b + 1) cs := by
  unfold inOrderFrom
  simp [List.range'_succ]

theorem tracks_nextIndex {cs : List Chunk} {w : Window} (h : tracks cs w) :
    w.nextIndex = cs.length := by
  obtain ⟨hle, hch⟩ := h
  unfold Window.nextIndex
  rw [hch]
  simp
  omega

theorem tracks_admit {p : BufferPolicy} {cs : List Chunk} {w : Window} {c : Chunk}
    (h : tracks cs w) :
    tracks (cs ++ [c])
      ⟨w.low + ((w.chunks.length + 1) - p.maxWindowChunks),
        (w.chunks ++ [c]).drop ((w.chunks.length + 1) - p.maxWindowChunks)⟩ := by
  obtain ⟨hle, hch⟩ := h
  have hlen : w.chunks.length = cs.length - w.low := by rw [hch]; simp
  constructor
  · simp
    omega
  · show (w.chunks ++ [c]).drop ((w.chunks.length + 1) - p.maxWindowChunks) =
      (cs ++ [c]).drop (w.low + ((w.chunks.length + 1) - p.maxWindowChunks))
    rw [hch, ← List.drop_append_of_le_length hle, List.drop_drop]

theorem admitList_tracks (p : BufferPolicy) (cs₀ : List Chunk) (w : Window)
    (cs : List Chunk) (h0 : tracks cs₀ w) (h1 : inOrderFrom cs₀.length cs) :
    tracks (cs₀ ++ cs) (admitList p w cs) := by
  induction cs generalizing cs₀ w with
  | nil => simpa [admitList] using h0
  | cons c cs ih =>
    obtain ⟨hidx, hrest⟩ := inOrderFrom_cons.mp h1
    have hnext : c.seqIndex = w.nextIndex := by
      rw [hidx, tracks_nextIndex h0]
    have hstep := tracks_admit (p := p) (c := c) h0
    have heq : admitList p w (c :: cs) =
        admitList p
          ⟨w.low + ((w.chunks.length + 1) - p.maxWindowChunks),
            (w.chunks ++ [c]).drop ((w.chunks.length + 1) - p.maxWindowChunks)⟩ cs := by
      rw [admitList, admit_ok_of_eq hnext]
    rw [heq]
    have := ih (cs₀ ++ [c]) _ hstep (by simpa using hrest)
    simpa using this

theorem tracks_initWindow : tracks [] initWindow := by
  constructor <;> simp [initWindow]

/-- C1: for every sequence of in-order `admitChunk` calls on a Sliding Window
Buffer, after each call the bound `highWatermark − lowWatermark ≤
maxWindowChunks` holds: an `admitChunk` that would exceed the bound evicts from
`lowWatermark` upward until the bound holds again. -/
theorem admitTrace_window_bound (p : BufferPolicy) (w : Window)
    (cs : List Chunk) (w' : Window) (hw' : w' ∈ admitTrace p w cs) :
    w'.highWatermark - (w'.low : Int) ≤ (p.maxWindowChunks : Int) := by
  induction cs generalizing w with
  | nil => simp [admitTrace] at hw'
  | cons c cs ih =>
    rw [admitTrace] at hw'
    cases hadm : admitChunk p w c with
    | error e => rw [hadm] at hw'; simp at hw'
    | ok w1 =>
      rw [hadm] at hw'
      rcases List.mem_cons.mp hw' with rfl | hmem
      · have := admit_ok_length hadm
        unfold Window.highWatermark
        omega
      · exact ih w1 hmem

theorem admitTrace_window_bound_witness :
    (⟨1, [⟨1, []⟩, ⟨2, []⟩]⟩ : Window) ∈
        admitTrace ⟨2, 0, 0, 0⟩ initWindow [⟨0, []⟩, ⟨1, []⟩, ⟨2, []⟩] ∧
    (Window.mk 1 [⟨1, []⟩, ⟨2, []⟩]).highWatermark -
        ((Window.mk 1 [⟨1, []⟩, ⟨2, []⟩]).low : Int) ≤
      ((BufferPolicy.mk 2 0 0 0).maxWindowChunks : Int) :=
  ⟨by decide, admitTrace_window_bound ⟨2, 0, 0, 0⟩ initWindow
    [⟨0, []⟩, ⟨1, []⟩, ⟨2, []⟩] ⟨1, [⟨1, []⟩, ⟨2, []⟩]⟩ (by decide)⟩

/-- C2: `admitChunk` of a chunk whose sequence index is not exactly
`highWatermark + 1` fails with `OutOfOrderChunk` — in this functional
embedding the caller keeps the old window, so its contents and both
watermarks are unchanged — and `admitChunk` of the chunk with index exactly
`highWatermark + 1` appends it: the call succeeds, `highWatermark`
advances by one, and (whenever the window can retain at least one chunk)
the new chunk is retrievable at its index. -/
theorem admit_contiguity (p : BufferPolicy) (w : Window) (c : Chunk) :
    (c.seqIndex ≠ w.nextIndex →
      admitChunk p w c = Except.error BufferError.OutOfOrderChunk) ∧
    (c.seqIndex = w.nextIndex → 1 ≤ p.maxWindowChunks →
      ∃ w', admitChunk p w c = Except.ok w' ∧
        w'.highWatermark = w.highWatermark + 1 ∧
        Window.get w' c.seqIndex = Except.ok c) := by
  constructor
  · exact admit_error_of_ne
  · intro hidx hmax
    have hnext : c.seqIndex = w.low + w.chunks.length := hidx
    refine ⟨_, admit_ok_of_eq hidx, ?_, ?_⟩
    · unfold Window.highWatermark
      simp only [List.length_drop, List.length_append, List.length_cons,
        List.length_nil]
      push_cast [Nat.sub_sub_self]
      omega
    · have hlow : w.low + ((w.chunks.length + 1) - p.maxWindowChunks) ≤ c.seqIndex := by
        omega
      have hpos : c.seqIndex - (w.low + ((w.chunks.length + 1) - p.maxWindowChunks)) <
          ((w.chunks ++ [c]).drop ((w.chunks.length + 1) - p.maxWindowChunks)).length := by
        simp only [List.length_drop, List.length_append, List.length_cons,
          List.length_nil]
        omega
      rw [get_eq_ok_of hlow hpos]
      congr 1
      exact drop_concat_get (by omega) hpos

theorem admit_contiguity_witness :
    (∃ w', admitChunk ⟨2, 0, 0, 0⟩ ⟨0, [⟨0, []⟩, ⟨1, []⟩]⟩ ⟨2, [7]⟩ = Except.ok w' ∧
        w'.highWatermark = (Window.mk 0 [⟨0, []⟩, ⟨1, []⟩]).highWatermark + 1 ∧
        Window.get w' (Chunk.mk 2 [7]).seqIndex = Except.ok ⟨2, [7]⟩) ∧
    admitChunk ⟨2, 0, 0, 0⟩ ⟨0, [⟨0, []⟩, ⟨1, []⟩]⟩ ⟨5, [7]⟩ =
      Except.error BufferError.OutOfOrderChunk :=
  ⟨(admit_contiguity ⟨2, 0, 0, 0⟩ ⟨0, [⟨0, []⟩, ⟨1, []⟩]⟩ ⟨2, [7]⟩).2
      (by decide) (by decide),
    (admit_contiguity ⟨2, 0, 0, 0⟩ ⟨0, [⟨0, []⟩, ⟨1, []⟩]⟩ ⟨5, [7]⟩).1
      (by decide)⟩

/-- C3: for a buffer built by any sequence of in-order `admitChunk` calls and
for every index: `get` fails with `Evicted` when the index is below
`lowWatermark`, fails with `NotYetAvailable` when it is above
`highWatermark`, and for `lowWatermark ≤ index ≤ highWatermark` returns
exactly the chunk previously admitted at that index (`Window.get` is a
pure function, so repeated calls return the same chunk). -/
theorem get_trichotomy (p : BufferPolicy) (cs : List Chunk) (i : Nat)
    (hcs : inOrderFrom 0 cs) :
    (i < (admitList p initWindow cs).low →
      Window.get (admitList p initWindow cs) i =
        Except.error BufferError.Evicted) ∧
    ((admitList p initWindow cs).highWatermark < (i : Int) →
      Window.get (admitList p initWindow cs) i =
        Except.error BufferError.NotYetAvailable) ∧
    ((admitList p initWindow cs).low ≤ i →
      (i : Int) ≤ (admitList p initWindow cs).highWatermark →
      ∃ h : i < cs.length,
        Window.get (admitList p initWindow cs) i =
          Except.ok (cs.get ⟨i, h⟩)) := by
  have htr : tracks cs (admitList p initWindow cs) := by
    have := admitList_tracks p [] initWindow cs tracks_initWindow
      (by simpa using hcs)
    simpa using this
  obtain ⟨hle, hch⟩ := htr
  have hlen : (admitList p initWindow cs).chunks.length =
      cs.length - (admitList p initWindow cs).low := by
    rw [hch]; simp
  refine ⟨fun h => get_evicted_of_lt h, fun h => ?_, fun h1 h2 => ?_⟩
  · unfold Window.highWatermark at h
    exact get_nya_of (by omega) (by omega)
  · unfold Window.highWatermark at h2
    have hi : i - (admitList p initWindow cs).low <
        (admitList p initWindow cs).chunks.length := by omega
    have hcslen : i < cs.length := by omega
    refine ⟨hcslen, ?_⟩
    rw [get_eq_ok_of h1 hi]
    congr 1
    have h5 : (admitList p initWindow cs).chunks[i - (admitList p initWindow cs).low]? =
        cs[i]? := by
      rw [hch, List.getElem?_drop,
        show (admitList p initWindow cs).low +
          (i - (admitList p initWindow cs).low) = i from by omega]
    rw [List.getElem?_eq_getElem hi, List.getElem?_eq_getElem hcslen] at h5
    rw [List.get_eq_getElem, List.get_eq_getElem]
    exact Option.some.inj h5

theorem get_trichotomy_witness :
    (2 < (admitList ⟨2, 0, 0, 0⟩ initWindow
        [⟨0, [5]⟩, ⟨1, [6]⟩, ⟨2, [7]⟩]).low →
      Window.get (admitList ⟨2, 0, 0, 0⟩ initWindow
        [⟨0, [5]⟩, ⟨1, [6]⟩, ⟨2, [7]⟩]) 2 =
        Except.error BufferError.Evicted) ∧
    ((admitList ⟨2, 0, 0, 0⟩ initWindow
        [⟨0, [5]⟩, ⟨1, [6]⟩, ⟨2, [7]⟩]).highWatermark < ((2 : Nat) : Int) →
      Window.get (admitList ⟨2, 0, 0, 0⟩ initWindow
        [⟨0, [5]⟩, ⟨1, [6]⟩, ⟨2, [7]⟩]) 2 =
        Except.error BufferError.NotYetAvailable) ∧
    ((admitList ⟨2, 0, 0, 0⟩ initWindow
        [⟨0, [5]⟩, ⟨1, [6]⟩, ⟨2, [7]⟩]).low ≤ 2 →
      ((2 : Nat) : Int) ≤ (admitList ⟨2, 0, 0, 0⟩ initWindow
        [⟨0, [5]⟩, ⟨1, [6]⟩, ⟨2, [7]⟩]).highWatermark →
      ∃ h : 2 < ([⟨0, [5]⟩, ⟨1, [6]⟩, ⟨2, [7]⟩] : List Chunk).length,
        Window.get (admitList ⟨2, 0, 0, 0⟩ initWindow
          [⟨0, [5]⟩, ⟨1, [6]⟩, ⟨2, [7]⟩]) 2 =
          Except.ok (([⟨0, [5]⟩, ⟨1, [6]⟩, ⟨2, [7]⟩] : List Chunk).get ⟨2, h⟩)) :=
  get_trichotomy ⟨2, 0, 0, 0⟩ [⟨0, [5]⟩, ⟨1, [6]⟩, ⟨2, [7]⟩] 2 (by decide)

/-- C6: across every sequence of buffer operations (`admitChunk` is the only
state-changing operation; `get` and `availableRange` are read-only),
`lowWatermark` never decreases and `highWatermark` never decreases, and a
sequence index that has been evicted (fallen below `lowWatermark`) is
never re-admitted: it answers `Evicted` in every later state. -/
theorem watermarks_monotone (p : BufferPolicy) (w : Window) (cs : List Chunk)
    (w' : Window) (hw' : w' ∈ admitTrace p w cs) :
    w.low ≤ w'.low ∧ w.highWatermark ≤ w'.highWatermark ∧
    ∀ i : Nat, i < w.low →
      Window.get w' i = Except.error BufferError.Evicted := by
  induction cs generalizing w with
  | nil => simp [admitTrace] at hw'
  | cons c cs ih =>
    rw [admitTrace] at hw'
    cases hadm : admitChunk p w c with
    | error e => rw [hadm] at hw'; simp at hw'
    | ok w1 =>
      rw [hadm] at hw'
      have hstep : w.low ≤ w1.low ∧ w.highWatermark ≤ w1.highWatermark := by
        obtain ⟨-, hl, hc⟩ := admit_ok_eq hadm
        refine ⟨by omega, ?_⟩
        unfold Window.highWatermark
        rw [hl, hc]
        simp only [List.length_drop, List.length_append, List.length_cons,
          List.length_nil]
        omega
      rcases List.mem_cons.mp hw' with rfl | hmem
      · exact ⟨hstep.1, hstep.2, fun i hi => get_evicted_of_lt (by omega)⟩
      · obtain ⟨h1, h2, h3⟩ := ih w1 hmem
        exact ⟨le_trans hstep.1 h1, le_trans hstep.2 h2,
          fun i hi => h3 i (by omega)⟩

theorem watermarks_monotone_witness :
    (⟨2, [⟨2, []⟩, ⟨3, []⟩]⟩ : Window) ∈
        admitTrace ⟨2, 0, 0, 0⟩ ⟨1, [⟨1, []⟩, ⟨2, []⟩]⟩ [⟨3, []⟩] ∧
    ((Window.mk 1 [⟨1, []⟩, ⟨2, []⟩]).low ≤ (Window.mk 2 [⟨2, []⟩, ⟨3, []⟩]).low ∧
      (Window.mk 1 [⟨1, []⟩, ⟨2, []⟩]).highWatermark ≤
        (Window.mk 2 [⟨2, []⟩, ⟨3, []⟩]).highWatermark ∧
      ∀ i : Nat, i < (Window.mk 1 [⟨1, []⟩, ⟨2, []⟩]).low →
        Window.get ⟨2, [⟨2, []⟩, ⟨3, []⟩]⟩ i =
          Except.error BufferError.Evicted) :=
  ⟨by decide,
    watermarks_monotone ⟨2, 0, 0, 0⟩ ⟨1, [⟨1, []⟩, ⟨2, []⟩]⟩ [⟨3, []⟩]
      ⟨2, [⟨2, []⟩, ⟨3, []⟩]⟩ (by decide)⟩

theorem get_seqIndex_of_wf {w : Window} {i : Nat} (hwf : w.wf)
    (h1 : w.low ≤ i) (h2 : i - w.low < w.chunks.length) :
    (w.chunks.get ⟨i - w.low, h2⟩).seqIndex = i := by
  unfold Window.wf inOrderFrom at hwf
  have h4 : (w.chunks.map Chunk.seqIndex)[i - w.low]? =
      (List.range' w.low w.chunks.length)[i - w.low]? := by rw [hwf]
  rw [List.getElem?_map, List.getElem?_range' w.low 1 h2,
    List.getElem?_eq_getElem h2] at h4
  simp at h4
  show w.chunks[i - w.low].seqIndex = i
  omega
  

/-- C4: `seek(t)` succeeds iff `t` lies within `availableRange()`;
on success it sets `playbackHead = t`, so (on a well-formed window with
`t` retained) the next drained chunk is exactly index `t`; otherwise it
fails with `SeekOutOfWindow`. -/
theorem seek_spec (s : Session) (t : Nat) :
    ((∃ s', seek s t = Except.ok s') ↔
      ((availableRange s.window).1 ≤ (t : Int) ∧
        (t : Int) ≤ (availableRange s.window).2)) ∧
    ((¬ ((availableRange s.window).1 ≤ (t : Int) ∧
        (t : Int) ≤ (availableRange s.window).2)) →
      seek s t = Except.error DispatchError.SeekOutOfWindow) ∧
    (∀ s', seek s t = Except.ok s' →
      s'.playbackHead = t ∧
      (s.window.wf →
        ∃ c s'', drainNext s' = Except.ok (c, s'') ∧ c.seqIndex = t)) := by
  refine ⟨⟨fun ⟨s', hs'⟩ => ?_, fun h => ?_⟩, fun h => ?_, fun s' hs' => ?_⟩
  · by_contra h
    unfold seek at hs'
    rw [if_neg h] at hs'
    exact Except.noConfusion hs'
  · exact ⟨_, by unfold seek; rw [if_pos h]⟩
  · unfold seek
    rw [if_neg h]
  · unfold seek at hs'
    split at hs'
    · next hin =>
      injection hs' with h'
      subst h'
      refine ⟨rfl, fun hwf => ?_⟩
      unfold availableRange Window.highWatermark at hin
      have h1 : s.window.low ≤ t := by
        have := hin.1
        simpa using this
      have h2 : t - s.window.low < s.window.chunks.length := by
        have := hin.2
        simp at this
        omega
      refine ⟨s.window.chunks.get ⟨t - s.window.low, h2⟩,
        ⟨s.window, t + 1⟩, ?_, ?_⟩
      · unfold drainNext
        rw [show Window.get s.window t =
          Except.ok (s.window.chunks.get ⟨t - s.window.low, h2⟩) from
          get_eq_ok_of h1 h2]
      · exact get_seqIndex_of_wf hwf h1 h2
    · exact Except.noConfusion hs'

theorem seek_spec_witness :
    availableRange (admitList ⟨5, 0, 0, 0⟩ initWindow
        ((List.range 11).map fun k => Chunk.mk k [])) = (6, 10) ∧
    seek ⟨admitList ⟨5, 0, 0, 0⟩ initWindow
        ((List.range 11).map fun k => Chunk.mk k []), 10⟩ 4 =
      Except.error DispatchError.SeekOutOfWindow ∧
    ∃ s', seek ⟨admitList ⟨5, 0, 0, 0⟩ initWindow
        ((List.range 11).map fun k => Chunk.mk k []), 10⟩ 7 =
        Except.ok s' ∧ s'.playbackHead = 7 ∧
      ∃ c s'', drainNext s' = Except.ok (c, s'') ∧ c.seqIndex = 7 := by
  refine ⟨by decide,
    (seek_spec ⟨admitList ⟨5, 0, 0, 0⟩ initWindow
      ((List.range 11).map fun k => Chunk.mk k []), 10⟩ 4).2.1 (by decide), ?_⟩
  obtain ⟨s', hs'⟩ := (seek_spec ⟨admitList ⟨5, 0, 0, 0⟩ initWindow
    ((List.range 11).map fun k => Chunk.mk k []), 10⟩ 7).1.2 (by decide)
  have h2 := (seek_spec ⟨admitList ⟨5, 0, 0, 0⟩ initWindow
    ((List.range 11).map fun k => Chunk.mk k []), 10⟩ 7).2.2 s' hs'
  obtain ⟨c, s'', hd, hc⟩ := h2.2 (by decide)
  exact ⟨s', hs', h2.1, c, s'', hd, hc⟩

theorem streamRun_tracks (p : BufferPolicy) (cs : List Chunk)
    (cs₀ : List Chunk) (w : Window) (hp : 1 ≤ p.maxWindowChunks)
    (h0 : tracks cs₀ w) (h1 : inOrderFrom cs₀.length cs) :
    streamRun p ⟨w, cs₀.length⟩ cs = cs := by
  induction cs generalizing cs₀ w with
  | nil => rfl
  | cons c cs ih =>
    obtain ⟨hidx, hrest⟩ := inOrderFrom_cons.mp h1
    obtain ⟨hle, hch⟩ := h0
    have hlen : w.chunks.length = cs₀.length - w.low := by rw [hch]; simp
    have hnext : c.seqIndex = w.nextIndex := by
      rw [hidx, tracks_nextIndex ⟨hle, hch⟩]
    have hadm := admit_ok_of_eq (p := p) hnext
    have hlow : (w.low + ((w.chunks.length + 1) - p.maxWindowChunks)) ≤
        cs₀.length := by omega
    have hlt : cs₀.length - (w.low + ((w.chunks.length + 1) - p.maxWindowChunks)) <
        ((w.chunks ++ [c]).drop ((w.chunks.length + 1) - p.maxWindowChunks)).length := by
      simp only [List.length_drop, List.length_append, List.length_cons,
        List.length_nil]
      omega
    have hval : ((w.chunks ++ [c]).drop
        ((w.chunks.length + 1) - p.maxWindowChunks)).get
          ⟨cs₀.length - (w.low + ((w.chunks.length + 1) - p.maxWindowChunks)),
            hlt⟩ = c := by
      show ((w.chunks ++ [c]).drop ((w.chunks.length + 1) - p.maxWindowChunks))[
        cs₀.length - (w.low + ((w.chunks.length + 1) - p.maxWindowChunks))] = c
      exact drop_concat_get (by omega) hlt
    have hdrain : drainNext
        ⟨⟨w.low + ((w.chunks.length + 1) - p.maxWindowChunks),
          (w.chunks ++ [c]).drop ((w.chunks.length + 1) - p.maxWindowChunks)⟩,
          cs₀.length⟩ =
        Except.ok (c,
          ⟨⟨w.low + ((w.chunks.length + 1) - p.maxWindowChunks),
            (w.chunks ++ [c]).drop ((w.chunks.length + 1) - p.maxWindowChunks)⟩,
            cs₀.length + 1⟩) := by
      unfold drainNext
      rw [show Window.get
          ⟨w.low + ((w.chunks.length + 1) - p.maxWindowChunks),
            (w.chunks ++ [c]).drop ((w.chunks.length + 1) - p.maxWindowChunks)⟩
          cs₀.length = Except.ok c from by rw [get_eq_ok_of hlow hlt, hval]]
    simp only [streamRun, hadm, hdrain]
    have hstep := tracks_admit (p := p) (c := c) ⟨hle, hch⟩
    have := ih (cs₀ ++ [c])
      ⟨w.low + ((w.chunks.length + 1) - p.maxWindowChunks),
        (w.chunks ++ [c]).drop ((w.chunks.length + 1) - p.maxWindowChunks)⟩
      hstep (by simpa using hrest)
    simp only [List.length_append, List.length_cons, List.length_nil] at this
    rw [show cs₀.length + 1 = cs₀.length + (0 + 1) from by omega] at this ⊢
    rw [this]

/-- C5: round-trip — draining a session from `playbackHead = 0` until
source exhaustion delivers exactly the Source Adapter's ground-truth
chunk sequence: in strictly ascending index order, with no gaps and no
duplicates (the output list equals the ground-truth list).  Requires a
policy able to retain at least one chunk. -/
theorem streamRun_roundTrip (p : BufferPolicy) (cs : List Chunk)
    (hp : 1 ≤ p.maxWindowChunks) (hcs : inOrderFrom 0 cs) :
    streamRun p initSession cs = cs :=
  streamRun_tracks p cs [] initWindow hp tracks_initWindow
    (by simpa using hcs)

theorem streamRun_roundTrip_witness :
    1 ≤ (BufferPolicy.mk 1 0 0 0).maxWindowChunks ∧
    inOrderFrom 0 [⟨0, [1]⟩, ⟨1, [2]⟩, ⟨2, [3]⟩] ∧
    streamRun ⟨1, 0, 0, 0⟩ initSession [⟨0, [1]⟩, ⟨1, [2]⟩, ⟨2, [3]⟩] =
      [⟨0, [1]⟩, ⟨1, [2]⟩, ⟨2, [3]⟩] :=
  ⟨by decide, by decide,
    streamRun_roundTrip ⟨1, 0, 0, 0⟩ [⟨0, [1]⟩, ⟨1, [2]⟩, ⟨2, [3]⟩]
      (by decide) (by decide)⟩

/-- C7: for every external hint value, including an absent hint,
`prefetchDistance(hint)` lies within the BufferPolicy bounds
`[minPrefetch, maxPrefetch]`; with no usable hint it falls back to the
fixed default prefetch distance (returned as-is whenever that default
respects the bounds). -/
theorem prefetchDistance_clamped (p : BufferPolicy) (hint : Option Nat)
    (hb : p.minPrefetch ≤ p.maxPrefetch) :
    p.minPrefetch ≤ prefetchDistance p hint ∧
    prefetchDistance p hint ≤ p.maxPrefetch ∧
    (p.minPrefetch ≤ p.defaultPrefetch → p.defaultPrefetch ≤ p.maxPrefetch →
      prefetchDistance p none = p.defaultPrefetch) := by
  unfold prefetchDistance
  refine ⟨by omega, by omega, fun h1 h2 => ?_⟩
  show min p.maxPrefetch (max p.minPrefetch p.defaultPrefetch) = p.defaultPrefetch
  omega

theorem prefetchDistance_clamped_witness :
    ((BufferPolicy.mk 0 2 8 4).minPrefetch ≤ (BufferPolicy.mk 0 2 8 4).maxPrefetch) ∧
    ((BufferPolicy.mk 0 2 8 4).minPrefetch ≤ prefetchDistance ⟨0, 2, 8, 4⟩ (some 100) ∧
      prefetchDistance ⟨0, 2, 8, 4⟩ (some 100) ≤ (BufferPolicy.mk 0 2 8 4).maxPrefetch ∧
      ((BufferPolicy.mk 0 2 8 4).minPrefetch ≤ (BufferPolicy.mk 0 2 8 4).defaultPrefetch →
        (BufferPolicy.mk 0 2 8 4).defaultPrefetch ≤ (BufferPolicy.mk 0 2 8 4).maxPrefetch →
        prefetchDistance ⟨0, 2, 8, 4⟩ none = (BufferPolicy.mk 0 2 8 4).defaultPrefetch)) :=
  ⟨by decide, prefetchDistance_clamped ⟨0, 2, 8, 4⟩ (some 100) (by decide)⟩

/-- C8: `destroy` is idempotent — `destroy (destroy m sid) sid` leaves the
same manager state as `destroy m sid` — and destroying an unknown (or
already-destroyed) session id is a no-op that returns the manager
unchanged; the operation is total, so it never reports an error. -/
theorem destroy_idempotent (m : SessionManager) (sid : Nat) :
    destroy (destroy m sid) sid = destroy m sid ∧
    (lookupSession m sid = none → destroy m sid = m) := by
  constructor
  · show (⟨(m.sessions.filter (fun e => e.fst != sid)).filter
        (fun e => e.fst != sid)⟩ : SessionManager) = ⟨_⟩
    rw [List.filter_filter]
    congr 1
    apply List.filter_congr
    intro a ha
    cases h : a.fst == sid <;> simp [h]
  · intro h
    have hfind : m.sessions.find? (fun e => e.fst == sid) = none := by
      unfold lookupSession at h
      cases hf : m.sessions.find? (fun e => e.fst == sid) with
      | none => rfl
      | some x => rw [hf] at h; exact Option.noConfusion h
    rw [List.find?_eq_none] at hfind
    cases m with
    | mk sessions =>
      show (⟨sessions.filter (fun e => e.fst != sid)⟩ : SessionManager) = _
      congr 1
      rw [List.filter_eq_self]
      intro a ha
      have := hfind a ha
      simpa using this

theorem destroy_idempotent_witness :
    destroy (destroy ⟨[(1, ⟨⟨0, []⟩, 0⟩)]⟩ 2) 2 = destroy ⟨[(1, ⟨⟨0, []⟩, 0⟩)]⟩ 2 ∧
    lookupSession ⟨[(1, ⟨⟨0, []⟩, 0⟩)]⟩ 2 = none ∧
    destroy ⟨[(1, ⟨⟨0, []⟩, 0⟩)]⟩ 2 = ⟨[(1, ⟨⟨0, []⟩, 0⟩)]⟩ :=
  ⟨(destroy_idempotent ⟨[(1, ⟨⟨0, []⟩, 0⟩)]⟩ 2).1, by decide,
    (destroy_idempotent ⟨[(1, ⟨⟨0, []⟩, 0⟩)]⟩ 2).2 (by decide)⟩

theorem getLast?_cons_of_ne_nil {α : Type} {l : List α} (a : α)
    (h : l ≠ []) : (a :: l).getLast? = l.getLast? := by
  cases l with
  | nil => exact absurd rfl h
  | cons b t => simp [List.getLast?_cons_cons]

/-- C9: under every SourceBuffer busy/idle schedule, the consumer loop
appends exactly the received chunks, each exactly once, in arrival order
(its append subtrace is the arrival sequence), and calls `endOfStream`
exactly once, as the final call after the stream reports done. -/
theorem fetchAndAppendChunks_spec (busy : List Bool)
    (stream : List (List Nat)) :
    (fetchAndAppendChunks busy stream).filter MSEvent.isAppend =
      stream.map MSEvent.append ∧
    (fetchAndAppendChunks busy stream).count MSEvent.endOfStream = 1 ∧
    (fetchAndAppendChunks busy stream).getLast? = some MSEvent.endOfStream := by
  induction stream generalizing busy with
  | nil => simp [fetchAndAppendChunks, MSEvent.isAppend]
  | cons v rest ih =>
    rcases busy with _ | ⟨b, bs⟩
    · obtain ⟨h1, h2, h3⟩ := ih []
      have hne : fetchAndAppendChunks [] rest ≠ [] := fun hcon => by
        rw [hcon] at h3; exact Option.noConfusion h3
      simp [fetchAndAppendChunks, MSEvent.isAppend, h1, h2, h3,
        List.count_cons, getLast?_cons_of_ne_nil, hne]
    · obtain ⟨h1, h2, h3⟩ := ih bs
      have hne : fetchAndAppendChunks bs rest ≠ [] := fun hcon => by
        rw [hcon] at h3; exact Option.noConfusion h3
      cases b <;>
        simp [fetchAndAppendChunks, MSEvent.isAppend, h1, h2, h3,
          List.count_cons, getLast?_cons_of_ne_nil, hne]

/-- C10: whenever the trimmed URL input is empty or starts with neither
`http://` nor `https://`, the click handler only sets an error status and
returns: no backend request is issued, and the HLS instance and stored
preview id are unchanged. -/
theorem startBtnClick_rejects (input : List Char) (st : PlayerState)
    (h : jsTrim input = [] ∨
      (jsStartsWith (jsTrim input) ("http://".toList) = false ∧
        jsStartsWith (jsTrim input) ("https://".toList) = false)) :
    ((startBtnClick input st).1 = ClickAction.rejectEmptyUrl ∨
      (startBtnClick input st).1 = ClickAction.rejectBadScheme) ∧
    (startBtnClick input st).2.hlsInstance = st.hlsInstance ∧
    (startBtnClick input st).2.currentPreviewId = st.currentPreviewId := by
  by_cases he : jsTrim input = []
  · simp [startBtnClick, he]
  · rcases h with h | ⟨h1, h2⟩
    · exact absurd h he
    · have hcond : (!(jsStartsWith (jsTrim input) ("http://".toList)) &&
          !(jsStartsWith (jsTrim input) ("https://".toList))) = true := by
        rw [h1, h2]
        rfl
      simp only [startBtnClick]
      rw [if_neg he, if_pos hcond]
      exact ⟨Or.inr rfl, rfl, rfl⟩

theorem startBtnClick_rejects_witness :
    (jsTrim ("ftp://example.com".toList) = [] ∨
      (jsStartsWith (jsTrim ("ftp://example.com".toList)) ("http://".toList) = false ∧
        jsStartsWith (jsTrim ("ftp://example.com".toList)) ("https://".toList) = false)) ∧
    (((startBtnClick ("ftp://example.com".toList) ⟨some 5, some 9, []⟩).1 =
        ClickAction.rejectEmptyUrl ∨
      (startBtnClick ("ftp://example.com".toList) ⟨some 5, some 9, []⟩).1 =
        ClickAction.rejectBadScheme) ∧
    (startBtnClick ("ftp://example.com".toList) ⟨some 5, some 9, []⟩).2.hlsInstance =
      some 5 ∧
    (startBtnClick ("ftp://example.com".toList) ⟨some 5, some 9, []⟩).2.currentPreviewId =
      some 9) :=
  ⟨by decide,
    startBtnClick_rejects ("ftp://example.com".toList) ⟨some 5, some 9, []⟩
      (by decide)⟩
